import Mathlib

/-!
Verification of the scrollback history store in `src/kitty/history.c`.

The store is a ring buffer of `ynum` rows, each `xnum` cells wide, with a
per-row continuation flag (`continued_map`), a `count` of valid rows and the
physical slot `start_of_data` of the oldest valid row.

Embedding choices:
  * A `Cell` is modelled as a `Char` (the C `Cell` struct is treated as an
    opaque per-cell payload by all the code verified here).
  * The flat C array `buf` (indexed by `y * xnum`) is modelled as a list of
    rows, each row a list of cells; `continued_map` as a list of booleans.
  * Machine `unsigned int` arithmetic appears only in the zero-area check of
    `new` (`xnum * ynum == 0`), modelled with an explicit `% 2^32`.
  * Allocation outcomes (`PyMem_Calloc` returning NULL) are explicit boolean
    parameters; Python exceptions become the `HBError` type.
  * `rewrap.h` (the `rewrap_inner` template) is not among the sources; its
    driver is modelled from the spec, see `rewrap_inner` below.  The macros
    that parameterise it (`map_src_index`, `is_src_line_continued`,
    `next_dest_line`) are in `history.c` and are translated from the source.
-/

namespace KittyHistory

/-- A cell: one character position's payload (opaque to the history code). -/
abbrev Cell := Char

/-- BLANK_CHAR: the blank cell used by `clear_chars_in_line`. -/
def BLANK_CHAR : Cell := ' '

/-- A zero cell, as produced by `PyMem_Calloc`. -/
def NUL_CHAR : Cell := Char.ofNat 0

/-- A `Line`: the row view handed to / returned by the store (cells plus the
stored continuation flag). -/
structure Line where
  cells : List Cell
  continued : Bool
deriving DecidableEq, Repr

/-- Default line used for out-of-range `List.getD` lookups in statements. -/
def dLine : Line := { cells := [], continued := false }

instance {ε α : Type} [DecidableEq ε] [DecidableEq α] : DecidableEq (Except ε α) := fun a b =>
  match a, b with
  | .error e, .error e2 =>
      if h : e = e2 then .isTrue (by rw [h]) else .isFalse (fun hc => by cases hc; exact h rfl)
  | .error _, .ok _ => .isFalse (fun hc => by cases hc)
  | .ok _, .error _ => .isFalse (fun hc => by cases hc)
  | .ok a1, .ok a2 =>
      if h : a1 = a2 then .isTrue (by rw [h]) else .isFalse (fun hc => by cases hc; exact h rfl)

/-- The HistoryBuf structure: fields of the C struct that the verified code
reads or writes (`buf` is kept per-row rather than flat). -/
structure HistoryBuf where
  xnum : Nat
  ynum : Nat
  buf : List (List Cell)
  continued_map : List Bool
  count : Nat
  start_of_data : Nat
deriving DecidableEq, Repr

/-- Error kinds surfaced by the store (Python exceptions in the C code). -/
inductive HBError where
  | InvalidConstruction
  | OutOfMemory
  | IndexOutOfRange
deriving DecidableEq, Repr

/-- `new` (history.c lines 17-49).  `bufOk`, `mapOk`, `lineOk` say whether the
three allocations (`self->buf`, `self->continued_map`, `self->line`) succeed.
The C zero-area test `xnum * ynum == 0` is on `unsigned int`, hence the
`% 2^32`.  The C error test is
`self->buf == NULL || self->line == NULL || self->continued_map`:
the third disjunct is the *pointer itself*, i.e. it is taken exactly when the
`continued_map` allocation SUCCEEDS, which is `mapOk = true` here.  (The
success value below is the fully initialised store: cells cleared to
`BLANK_CHAR` by the `clear_chars_in_line` loop, flags zeroed by calloc.) -/
def new (ynum xnum : Nat) (bufOk mapOk lineOk : Bool) : Except HBError HistoryBuf :=
  if (xnum * ynum) % 2 ^ 32 = 0 then .error .InvalidConstruction
  else if bufOk = false ∨ lineOk = false ∨ mapOk = true then .error .OutOfMemory
  else .ok { xnum := xnum, ynum := ynum,
             buf := List.replicate ynum (List.replicate xnum BLANK_CHAR),
             continued_map := List.replicate ynum false,
             count := 0, start_of_data := 0 }

/-- The store state the success path of `new` is meant to produce (used to
state properties about stores of a given capacity and width). -/
def hb_fresh (ynum xnum : Nat) : HistoryBuf :=
  { xnum := xnum, ynum := ynum,
    buf := List.replicate ynum (List.replicate xnum BLANK_CHAR),
    continued_map := List.replicate ynum false,
    count := 0, start_of_data := 0 }

/-- `index_of` (lines 59-66): physical slot of reverse line number `lnum`
(`lnum = 0` is the most recently added row), clamping `lnum` to `count-1`. -/
def index_of (self : HistoryBuf) (lnum : Nat) : Nat :=
  if self.count = 0 then 0
  else (self.start_of_data + (self.count - 1 - min (self.count - 1) lnum)) % self.ynum

/-- `historybuf_push` (lines 80-87): claim the next slot, advancing
`start_of_data` (evicting the oldest row) when full, else growing `count`;
returns the slot index together with the updated store. -/
def historybuf_push (self : HistoryBuf) : Nat × HistoryBuf :=
  let idx := (self.start_of_data + self.count) % self.ynum
  if self.count = self.ynum then
    (idx, { self with start_of_data := (self.start_of_data + 1) % self.ynum })
  else
    (idx, { self with count := self.count + 1 })

/-- `historybuf_add_line` (lines 114-119): push, then copy the line's cells
into the claimed slot (`copy_line`) and record its continuation flag. -/
def historybuf_add_line (self : HistoryBuf) (line : Line) : HistoryBuf :=
  let p := historybuf_push self
  { p.2 with buf := p.2.buf.set p.1 line.cells,
             continued_map := p.2.continued_map.set p.1 line.continued }

/-- Push a whole list of lines, oldest first. -/
def pushAll (self : HistoryBuf) (ls : List Line) : HistoryBuf :=
  ls.foldl historybuf_add_line self

/-- The temporary `t` of `historybuf_resize` just before its copy loop:
calloc-zeroed storage of the new capacity at the old width, `t.count` already
set to `MIN(self->count, t.ynum)`, `t.start_of_data` zero. -/
def resize_t0 (self : HistoryBuf) (lines : Nat) : HistoryBuf :=
  { xnum := self.xnum, ynum := lines,
    buf := List.replicate lines (List.replicate self.xnum NUL_CHAR),
    continued_map := List.replicate lines false,
    count := min self.count lines, start_of_data := 0 }

/-- One iteration of the copy loop of `historybuf_resize` (lines 100-104):
copy the cells and flag of reverse line `s` of the old store into reverse
line `s` of the temporary. -/
def resize_step (self : HistoryBuf) (t : HistoryBuf) (s : Nat) : HistoryBuf :=
  let si := index_of self s
  let ti := index_of t s
  { t with buf := t.buf.set ti (self.buf.getD si []),
           continued_map := t.continued_map.set ti (self.continued_map.getD si false) }

/-- `historybuf_resize` (lines 89-112).  `bufOk` / `mapOk` are the outcomes of
the two `PyMem_Calloc` calls.  The C function mutates `self` only after both
allocations succeed and the copy loop finishes; it returns `false` with
`PyErr_NoMemory` set on allocation failure, modelled as
`(.error .OutOfMemory, self)`.  The temporary starts as `resize_t0`
(`HistoryBuf t = {{0}}` plus calloc, `t.count` set before the copy loop so
that `index_of` applied to the temporary inside the loop sees it) and the
loop folds `resize_step` over `s = 0, …, t.count - 1`. -/
def historybuf_resize (self : HistoryBuf) (lines : Nat) (bufOk mapOk : Bool) :
    Except HBError Unit × HistoryBuf :=
  if lines > 0 ∧ lines ≠ self.ynum then
    if bufOk = false then (.error .OutOfMemory, self)
    else if mapOk = false then (.error .OutOfMemory, self)
    else
      (.ok (), (List.range (resize_t0 self lines).count).foldl (resize_step self)
        (resize_t0 self lines))
  else (.ok (), self)

/-- `line` (lines 128-137): reverse-indexed read.  Both the empty-store check
and the bounds check raise `IndexError` in the C code (`IndexOutOfRange`
here); otherwise the row view at `index_of self lnum` is returned
(`init_line`: cell pointer plus `continued_map` entry). -/
def line (self : HistoryBuf) (lnum : Nat) : Except HBError Line :=
  if self.count = 0 then .error .IndexOutOfRange
  else if lnum ≥ self.count then .error .IndexOutOfRange
  else .ok { cells := self.buf.getD (index_of self lnum) [],
             continued := self.continued_map.getD (index_of self lnum) false }

/-- `as_ansi` (lines 148-168): the sequence of callback invocations.  Each
emitted item is the cells handed to `line_as_ansi` paired with whether a
newline was appended.  Faithful to the source: the cells come from physical
slot `i` (`init_line(self, i, &l)`), while the flag, for `i < count-1`, is
`continued_map[index_of(self, i+1)]`; the newline is appended iff the flag is
false.  (`line_as_ansi` itself and the 5120-byte escape buffer are external
serialization concerns, outside this model.) -/
def as_ansi (self : HistoryBuf) : List (List Cell × Bool) :=
  (List.range self.count).map (fun i =>
    let cells := self.buf.getD i []
    let cont := if i < self.count - 1
      then self.continued_map.getD (index_of self (i + 1)) false
      else false
    (cells, !cont))

/-! ## Rewrap

`historybuf_rewrap` (lines 223-235) and the macros it configures `rewrap.h`
with (lines 209-219).  The `rewrap_inner` template itself lives in the file
`rewrap.h`, which is not among the sources; its general-path driver is
modelled from the spec (section 4.3) below, on top of the source-translated
macros. -/

/-- `map_src_index` macro (line 211): physical slot of the source row at
chronological position `y` (0 = oldest). -/
def map_src_index (src : HistoryBuf) (y : Nat) : Nat :=
  (src.start_of_data + y) % src.ynum

/-- `is_src_line_continued` macro (line 215), translated verbatim: the guard
compares the row's *physical* slot against `ynum - 1` before reading the
stored flag of chronological row `src_y + 1`. -/
def is_src_line_continued (src : HistoryBuf) (src_y : Nat) : Bool :=
  if map_src_index src src_y < src.ynum - 1
  then src.continued_map.getD (map_src_index src (src_y + 1)) false
  else false

/-- Content of a row with trailing unused (blank) cells removed — the spec's
"content (ignoring unused trailing padding)" (the C side computes this with
`line_length`, trimming trailing blanks). -/
def trim_trailing_blanks (cells : List Cell) : List Cell :=
  (cells.reverse.dropWhile (fun c => c = BLANK_CHAR)).reverse

/-- Structural worker for `chunksOf` (the fuel is the list length, which
bounds the number of chunks since each step drops `w ≥ 1` cells). -/
def chunksOfAux (w : Nat) : Nat → List Cell → List (List Cell)
  | 0, _ => []
  | _, [] => []
  | fuel + 1, l => if w = 0 then [] else l.take w :: chunksOfAux w fuel (l.drop w)

/-- Modelled from the spec: split a logical line's concatenated content into
consecutive chunks of the destination width `w` (section 4.3 step 4). -/
def chunksOf (w : Nat) (l : List Cell) : List (List Cell) :=
  chunksOfAux w l.length l

/-- Modelled from the spec: the destination rows of one logical line — its
chunks, blank-padded to the destination width; an empty logical line still
occupies one (blank) destination row. -/
def dest_chunks (w : Nat) (content : List Cell) : List (List Cell) :=
  let cs := chunksOf w content
  if cs = [] then [List.replicate w BLANK_CHAR]
  else cs.map (fun c => c ++ List.replicate (w - c.length) BLANK_CHAR)

/-- Modelled from the spec: push the chunks of one logical line through the
destination's ordinary ring-buffer push (`next_dest_line`, line 217); per the
spec's section 4.3 step 4, every chunk except the line's last is pushed with
`continued = true`, the last with `continued = false`. -/
def push_line_chunks (dest : HistoryBuf) : List (List Cell) → HistoryBuf
  | [] => dest
  | [c] => historybuf_add_line dest { cells := c, continued := false }
  | c :: c2 :: rest =>
      push_line_chunks (historybuf_add_line dest { cells := c, continued := true })
        (c2 :: rest)

/-- Modelled from the spec (section 4.3 step 3): walk the source rows in
chronological order and group them into logical lines; row `y` is grouped
with row `y + 1` exactly when `is_src_line_continued src y` holds (the
grouping primitive is the source macro); a row that ends its line contributes
its content with trailing padding trimmed, a continued row contributes its
full width. -/
def logical_lines (src : HistoryBuf) : List (List Cell) :=
  let st := (List.range src.count).foldl
    (fun (st : List (List Cell) × List Cell) y =>
      let cells := src.buf.getD (map_src_index src y) []
      if is_src_line_continued src y then (st.1, st.2 ++ cells)
      else (st.1 ++ [st.2 ++ trim_trailing_blanks cells], []))
    ([], [])
  if st.2 = [] then st.1 else st.1 ++ [st.2]

/-- Modelled from the spec: `rewrap_inner` of `rewrap.h` (not among the
sources) — re-segment each reassembled logical line to the destination width
and feed the chunks through the destination's normal push (sections 4.3
steps 2-5; eviction happens inside `historybuf_add_line` as usual). -/
def rewrap_inner (src dest : HistoryBuf) : HistoryBuf :=
  (logical_lines src).foldl
    (fun d content => push_line_chunks d (dest_chunks d.xnum content)) dest

/-- `historybuf_rewrap` (lines 223-235): fast path bulk-copies `buf`,
`continued_map`, `count` and `start_of_data` when both width and capacity
match; otherwise the destination's `count` and `start_of_data` are reset to 0
and, when the source is non-empty, `rewrap_inner` runs.  Returns
(source, destination) after the call. -/
def historybuf_rewrap (self other : HistoryBuf) : HistoryBuf × HistoryBuf :=
  if other.xnum = self.xnum ∧ other.ynum = self.ynum then
    (self, { other with buf := self.buf, continued_map := self.continued_map,
                        count := self.count, start_of_data := self.start_of_data })
  else
    let o := { other with count := 0, start_of_data := 0 }
    (self, if self.count > 0 then rewrap_inner self o else o)

/-! ## Concrete stores used in statements -/

/-- Scenario A rows: four independent width-4 rows. -/
def scen_a_rows : List Line :=
  [{ cells := "ABCD".toList, continued := false },
   { cells := "EFGH".toList, continued := false },
   { cells := "IJKL".toList, continued := false },
   { cells := "MNOP".toList, continued := false }]

/-- Scenario A store: capacity 3, width 4, four independent pushes. -/
def scen_a : HistoryBuf := pushAll (hb_fresh 3 4) scen_a_rows

/-- A capacity-2, width-1 store whose ring has wrapped (three pushes): the
surviving rows are Y (oldest) and Z, and Z's stored flag marks it as a
continuation of Y. -/
def scen_wrapped : HistoryBuf :=
  pushAll (hb_fresh 2 1)
    [{ cells := "X".toList, continued := false },
     { cells := "Y".toList, continued := false },
     { cells := "Z".toList, continued := true }]

/-- Capacity-3, width-1 store, no wrap: rows A, B, C where C's stored flag
marks it as a continuation of B (so B does not end its logical line). -/
def scen_flags : HistoryBuf :=
  pushAll (hb_fresh 3 1)
    [{ cells := "A".toList, continued := false },
     { cells := "B".toList, continued := false },
     { cells := "C".toList, continued := true }]

/-- Capacity-2, width-5 store whose ring has wrapped (three pushes): the
surviving rows are HELLO (oldest) and WORLD, with WORLD's stored flag
marking it as a continuation of HELLO — one logical line "HELLOWORLD" of
length 10 stored as 2 rows at width 5. -/
def scen_hw : HistoryBuf :=
  pushAll (hb_fresh 2 5)
    [{ cells := "AAAAA".toList, continued := false },
     { cells := "HELLO".toList, continued := false },
     { cells := "WORLD".toList, continued := true }]

/-- The destination produced by rewrapping `scen_hw` to width 10,
capacity 4. -/
def scen_hw_dest : HistoryBuf := (historybuf_rewrap scen_hw (hb_fresh 4 10)).2

/-! ## Helper lemmas -/

theorem getD_set_self {α : Type} (l : List α) (i : Nat) (a d : α) (h : i < l.length) :
    (l.set i a).getD i d = a := by
  induction l generalizing i with
  | nil => simp at h
  | cons x xs ih =>
    cases i with
    | zero => rfl
    | succ n => exact ih n (Nat.lt_of_succ_lt_succ (by simpa using h))

theorem getD_set_ne {α : Type} (l : List α) {i j : Nat} (a d : α) (h : i ≠ j) :
    (l.set i a).getD j d = l.getD j d := by
  induction l generalizing i j with
  | nil => rfl
  | cons x xs ih =>
    cases i with
    | zero =>
      cases j with
      | zero => exact absurd rfl h
      | succ m => rfl
    | succ n =>
      cases j with
      | zero => rfl
      | succ m => exact ih (fun hnm => h (by omega))

theorem getD_append_left {α : Type} (xs ys : List α) (n : Nat) (d : α)
    (h : n < xs.length) : (xs ++ ys).getD n d = xs.getD n d := by
  induction xs generalizing n with
  | nil => simp at h
  | cons x t ih =>
    cases n with
    | zero => rfl
    | succ m => exact ih m (Nat.lt_of_succ_lt_succ (by simpa using h))

theorem getD_append_length {α : Type} (xs : List α) (a d : α) :
    (xs ++ [a]).getD xs.length d = a := by
  induction xs with
  | nil => rfl
  | cons x t ih => simp [ih]

/-- Cancellation of a common shift in equal residues of bounded offsets. -/
theorem add_mod_inj {C : Nat} (s : Nat) {a b : Nat} (ha : a < C) (hb : b < C)
    (h : (s + a) % C = (s + b) % C) : a = b := by
  have h2 : a ≡ b [MOD C] := Nat.ModEq.add_left_cancel' s h
  have ha2 := Nat.mod_eq_of_lt ha
  have hb2 := Nat.mod_eq_of_lt hb
  unfold Nat.ModEq at h2
  omega

/-- `line` fails exactly on out-of-range reverse line numbers. -/
theorem line_error_iff (s : HistoryBuf) (lnum : Nat) :
    line s lnum = .error .IndexOutOfRange ↔ s.count ≤ lnum := by
  unfold line
  split_ifs with h1 h2
  · simp; omega
  · simp; omega
  · simp; omega

/-- In-range `line` reads the physical slot `(start + (count-1-lnum)) % ynum`. -/
theorem line_ok_of_lt (s : HistoryBuf) (lnum : Nat) (h : lnum < s.count) :
    line s lnum
      = .ok { cells := s.buf.getD ((s.start_of_data + (s.count - 1 - lnum)) % s.ynum) [],
              continued := s.continued_map.getD
                ((s.start_of_data + (s.count - 1 - lnum)) % s.ynum) false } := by
  unfold line index_of
  rw [if_neg (by omega), if_neg (by omega), if_neg (by omega),
      min_eq_right (by omega : lnum ≤ s.count - 1)]

/-- Closed form of `historybuf_add_line`. -/
theorem add_line_eq (s : HistoryBuf) (l : Line) :
    historybuf_add_line s l =
      if s.count = s.ynum then
        { s with start_of_data := (s.start_of_data + 1) % s.ynum,
                 buf := s.buf.set ((s.start_of_data + s.count) % s.ynum) l.cells,
                 continued_map := s.continued_map.set
                   ((s.start_of_data + s.count) % s.ynum) l.continued }
      else
        { s with count := s.count + 1,
                 buf := s.buf.set ((s.start_of_data + s.count) % s.ynum) l.cells,
                 continued_map := s.continued_map.set
                   ((s.start_of_data + s.count) % s.ynum) l.continued } := by
  unfold historybuf_add_line historybuf_push
  by_cases h : s.count = s.ynum <;> simp [h]

/-- `index_of` on a non-empty store with an in-range reverse line number. -/
theorem index_of_eq (s : HistoryBuf) (lnum : Nat) (h0 : s.count ≠ 0)
    (h : lnum ≤ s.count - 1) :
    index_of s lnum = (s.start_of_data + (s.count - 1 - lnum)) % s.ynum := by
  unfold index_of
  rw [if_neg h0, min_eq_right h]

/-- In-range `line` phrased through `index_of`. -/
theorem line_ok_index (s : HistoryBuf) (lnum : Nat) (h : lnum < s.count) :
    line s lnum
      = .ok { cells := s.buf.getD (index_of s lnum) [],
              continued := s.continued_map.getD (index_of s lnum) false } := by
  unfold line
  rw [if_neg (by omega), if_neg (by omega)]

/-- One push preserves the ring-buffer invariant: if `s` holds the most
recent `min n C` of the `n` lines of `hist` (newest at reverse index 0),
then `historybuf_add_line s l` holds the most recent `min (n+1) C` lines of
`hist ++ [l]`. -/
theorem add_line_spec (C : Nat) (hC : 0 < C) (s : HistoryBuf) (hist : List Line) (l : Line)
    (hy : s.ynum = C) (hbl : s.buf.length = C) (hcl : s.continued_map.length = C)
    (hcount : s.count = min hist.length C)
    (hstart : s.start_of_data = (hist.length - min hist.length C) % C)
    (hget : ∀ lnum, lnum < s.count →
      s.buf.getD (index_of s lnum) [] = (hist.getD (hist.length - 1 - lnum) dLine).cells ∧
      s.continued_map.getD (index_of s lnum) false
        = (hist.getD (hist.length - 1 - lnum) dLine).continued) :
    (historybuf_add_line s l).ynum = C ∧
    (historybuf_add_line s l).buf.length = C ∧
    (historybuf_add_line s l).continued_map.length = C ∧
    (historybuf_add_line s l).count = min (hist.length + 1) C ∧
    (historybuf_add_line s l).start_of_data
      = ((hist.length + 1) - min (hist.length + 1) C) % C ∧
    ∀ lnum, lnum < (historybuf_add_line s l).count →
      (historybuf_add_line s l).buf.getD (index_of (historybuf_add_line s l) lnum) []
        = ((hist ++ [l]).getD (hist.length - lnum) dLine).cells ∧
      (historybuf_add_line s l).continued_map.getD
          (index_of (historybuf_add_line s l) lnum) false
        = ((hist ++ [l]).getD (hist.length - lnum) dLine).continued := by
  rw [add_line_eq]
  by_cases hfull : s.count = s.ynum
  · -- the store is full: the oldest row is evicted
    rw [if_pos hfull]
    have hsC : s.count = C := by rw [hfull, hy]
    have hminC : min hist.length C = C := by rw [← hcount, hsC]
    have hCn : C ≤ hist.length := by
      have h1 := Nat.min_le_left hist.length C
      rw [hminC] at h1
      exact h1
    have hslt : s.start_of_data < C := by rw [hstart, hminC]; exact Nat.mod_lt _ hC
    have hidx : (s.start_of_data + s.count) % s.ynum = s.start_of_data := by
      rw [hsC, hy, Nat.add_mod_right, Nat.mod_eq_of_lt hslt]
    refine ⟨hy, by simp [hbl], by simp [hcl], ?_, ?_, ?_⟩
    · show s.count = min (hist.length + 1) C
      rw [hsC, min_eq_right (by omega)]
    · show (s.start_of_data + 1) % s.ynum = ((hist.length + 1) - min (hist.length + 1) C) % C
      rw [hy, hstart, hminC, min_eq_right (by omega : C ≤ hist.length + 1),
          Nat.mod_add_mod, show hist.length - C + 1 = hist.length + 1 - C by omega]
    · intro lnum hl
      have hlC : lnum < C := by
        have : s.count = C := hsC
        simpa [this] using hl
      have hio : index_of
          ({ s with start_of_data := (s.start_of_data + 1) % s.ynum,
                    buf := s.buf.set ((s.start_of_data + s.count) % s.ynum) l.cells,
                    continued_map := s.continued_map.set
                      ((s.start_of_data + s.count) % s.ynum) l.continued } : HistoryBuf) lnum
          = (s.start_of_data + (C - lnum)) % C := by
        rw [index_of_eq]
        · show ((s.start_of_data + 1) % s.ynum + (s.count - 1 - lnum)) % s.ynum
            = (s.start_of_data + (C - lnum)) % C
          rw [hsC, hy, Nat.mod_add_mod,
              show s.start_of_data + 1 + (C - 1 - lnum) = s.start_of_data + (C - lnum) by omega]
        · show s.count ≠ 0
          omega
        · show lnum ≤ s.count - 1
          omega
      rcases Nat.eq_zero_or_pos lnum with h0 | h1
      · subst h0
        rw [hio, hidx]
        have hCl : (s.start_of_data + (C - 0)) % C = s.start_of_data := by
          rw [Nat.sub_zero, Nat.add_mod_right, Nat.mod_eq_of_lt hslt]
        rw [hCl, getD_set_self _ _ _ _ (by rw [hbl]; exact hslt),
            getD_set_self _ _ _ _ (by rw [hcl]; exact hslt),
            show hist.length - 0 = hist.length by omega, getD_append_length]
        exact ⟨rfl, rfl⟩
      · have hne : s.start_of_data ≠ (s.start_of_data + (C - lnum)) % C := by
          intro hcontra
          have h0C : (s.start_of_data + 0) % C = s.start_of_data := by
            rw [Nat.add_zero, Nat.mod_eq_of_lt hslt]
          have := add_mod_inj s.start_of_data (a := 0) (b := C - lnum) hC (by omega)
            (by rw [h0C]; exact hcontra)
          omega
        have hioold : index_of s (lnum - 1) = (s.start_of_data + (C - lnum)) % C := by
          rw [index_of_eq s (lnum - 1) (by omega) (by omega), hsC, hy,
              show C - 1 - (lnum - 1) = C - lnum by omega]
        have hgo := hget (lnum - 1) (by omega)
        rw [hioold] at hgo
        rw [hio, hidx,
            getD_set_ne _ _ _ hne, getD_set_ne _ _ _ hne,
            hgo.1, hgo.2,
            show hist.length - 1 - (lnum - 1) = hist.length - lnum by omega,
            getD_append_left _ _ _ _ (by omega)]
        exact ⟨rfl, rfl⟩
  · -- the store is not yet full: count grows
    rw [if_neg hfull]
    have hne2 : s.count ≠ C := by rw [← hy]; exact hfull
    have hltC : s.count < C := by
      have := Nat.min_le_right hist.length C
      omega
    have hnC : hist.length < C := by
      rcases Nat.lt_or_ge hist.length C with h | h
      · exact h
      · rw [min_eq_right h] at hcount; omega
    have hsn : s.count = hist.length := by rw [hcount, min_eq_left (by omega)]
    have hs0 : s.start_of_data = 0 := by
      rw [hstart, min_eq_left (by omega), Nat.sub_self, Nat.zero_mod]
    have hidx : (s.start_of_data + s.count) % s.ynum = hist.length := by
      rw [hs0, hsn, hy, Nat.zero_add, Nat.mod_eq_of_lt hnC]
    refine ⟨hy, by simp [hbl], by simp [hcl], ?_, ?_, ?_⟩
    · show s.count + 1 = min (hist.length + 1) C
      rw [hsn, min_eq_left (by omega)]
    · show s.start_of_data = ((hist.length + 1) - min (hist.length + 1) C) % C
      rw [hs0, min_eq_left (by omega), Nat.sub_self, Nat.zero_mod]
    · intro lnum hl
      have hln : lnum < hist.length + 1 := by
        have : s.count + 1 = hist.length + 1 := by omega
        simpa [this] using hl
      have hio : index_of
          ({ s with count := s.count + 1,
                    buf := s.buf.set ((s.start_of_data + s.count) % s.ynum) l.cells,
                    continued_map := s.continued_map.set
                      ((s.start_of_data + s.count) % s.ynum) l.continued } : HistoryBuf) lnum
          = hist.length - lnum := by
        rw [index_of_eq]
        · show (s.start_of_data + (s.count + 1 - 1 - lnum)) % s.ynum = hist.length - lnum
          rw [hs0, hsn, hy, Nat.zero_add,
              show hist.length + 1 - 1 - lnum = hist.length - lnum by omega,
              Nat.mod_eq_of_lt (by omega)]
        · show s.count + 1 ≠ 0
          omega
        · show lnum ≤ s.count + 1 - 1
          omega
      rcases Nat.eq_zero_or_pos lnum with h0 | h1
      · subst h0
        rw [hio, hidx, Nat.sub_zero,
            getD_set_self _ _ _ _ (by rw [hbl]; omega),
            getD_set_self _ _ _ _ (by rw [hcl]; omega),
            getD_append_length]
        exact ⟨rfl, rfl⟩
      · have hlle : lnum ≤ hist.length := by omega
        have hne3 : hist.length ≠ hist.length - lnum := by omega
        have hioold : index_of s (lnum - 1) = hist.length - lnum := by
          rw [index_of_eq s (lnum - 1) (by omega) (by omega), hs0, hsn, hy, Nat.zero_add,
              show hist.length - 1 - (lnum - 1) = hist.length - lnum by omega,
              Nat.mod_eq_of_lt (by omega)]
        have hgo := hget (lnum - 1) (by omega)
        rw [hioold] at hgo
        rw [hio, hidx,
            getD_set_ne _ _ _ hne3, getD_set_ne _ _ _ hne3,
            hgo.1, hgo.2,
            show hist.length - 1 - (lnum - 1) = hist.length - lnum by omega,
            getD_append_left _ _ _ _ (by omega)]
        exact ⟨rfl, rfl⟩

/-- Ring-buffer characterization: after pushing the lines of `ls` (oldest
first) into a fresh store of capacity `C`, the store holds the most recent
`min ls.length C` lines, reverse line number 0 being the newest. -/
theorem pushAll_spec (C W : Nat) (hC : 0 < C) (ls : List Line) :
    (pushAll (hb_fresh C W) ls).ynum = C ∧
    (pushAll (hb_fresh C W) ls).buf.length = C ∧
    (pushAll (hb_fresh C W) ls).continued_map.length = C ∧
    (pushAll (hb_fresh C W) ls).count = min ls.length C ∧
    (pushAll (hb_fresh C W) ls).start_of_data = (ls.length - min ls.length C) % C ∧
    ∀ lnum, lnum < (pushAll (hb_fresh C W) ls).count →
      (pushAll (hb_fresh C W) ls).buf.getD (index_of (pushAll (hb_fresh C W) ls) lnum) []
        = (ls.getD (ls.length - 1 - lnum) dLine).cells ∧
      (pushAll (hb_fresh C W) ls).continued_map.getD
          (index_of (pushAll (hb_fresh C W) ls) lnum) false
        = (ls.getD (ls.length - 1 - lnum) dLine).continued := by
  induction ls using List.reverseRecOn with
  | nil =>
    refine ⟨rfl, by simp [pushAll, hb_fresh], by simp [pushAll, hb_fresh], ?_, ?_, ?_⟩
    · simp [pushAll, hb_fresh]
    · simp [pushAll, hb_fresh]
    · intro lnum hl
      simp [pushAll, hb_fresh] at hl
  | append_singleton ls l ih =>
    have hpa : pushAll (hb_fresh C W) (ls ++ [l])
        = historybuf_add_line (pushAll (hb_fresh C W) ls) l := by
      simp [pushAll]
    rw [hpa]
    obtain ⟨ihy, ihbl, ihcl, ihcount, ihstart, ihget⟩ := ih
    have h := add_line_spec C hC _ ls l ihy ihbl ihcl ihcount ihstart ihget
    simpa using h

/-- The resize copy loop fills reverse lines `0, …, n-1` of the temporary
(physical slots `tcount-1-i`, since the temporary has `start_of_data = 0`)
with the corresponding reverse lines of the old store, preserving the
temporary's bookkeeping fields. -/
theorem resize_fold_spec (self : HistoryBuf) (K : Nat) (n : Nat)
    (hn : n ≤ min self.count K) :
    ((List.range n).foldl (resize_step self) (resize_t0 self K)).ynum = K ∧
    ((List.range n).foldl (resize_step self) (resize_t0 self K)).count = min self.count K ∧
    ((List.range n).foldl (resize_step self) (resize_t0 self K)).start_of_data = 0 ∧
    ((List.range n).foldl (resize_step self) (resize_t0 self K)).buf.length = K ∧
    ((List.range n).foldl (resize_step self) (resize_t0 self K)).continued_map.length = K ∧
    ∀ i, i < n →
      ((List.range n).foldl (resize_step self) (resize_t0 self K)).buf.getD
          (min self.count K - 1 - i) []
        = self.buf.getD (index_of self i) [] ∧
      ((List.range n).foldl (resize_step self) (resize_t0 self K)).continued_map.getD
          (min self.count K - 1 - i) false
        = self.continued_map.getD (index_of self i) false := by
  induction n with
  | zero =>
    refine ⟨rfl, rfl, rfl, by simp [resize_t0], by simp [resize_t0], ?_⟩
    intro i hi
    omega
  | succ m ih =>
    obtain ⟨ihy, ihcount, ihstart, ihbl, ihcl, ihget⟩ := ih (by omega)
    set T := (List.range m).foldl (resize_step self) (resize_t0 self K) with hT
    have hfold : (List.range (m + 1)).foldl (resize_step self) (resize_t0 self K)
        = resize_step self T m := by
      rw [List.range_succ, List.foldl_append, List.foldl_cons, List.foldl_nil]
    have htc : 0 < min self.count K := by omega
    have hti : index_of T m = min self.count K - 1 - m := by
      rw [index_of_eq]
      · rw [ihstart, ihcount, ihy, Nat.zero_add, Nat.mod_eq_of_lt (by omega)]
      · rw [ihcount]; omega
      · rw [ihcount]; omega
    have hstep : resize_step self T m
        = { T with buf := T.buf.set (min self.count K - 1 - m)
                     (self.buf.getD (index_of self m) []),
                   continued_map := T.continued_map.set (min self.count K - 1 - m)
                     (self.continued_map.getD (index_of self m) false) } := by
      unfold resize_step
      rw [hti]
    rw [hfold, hstep]
    refine ⟨ihy, ihcount, ihstart, by simp [ihbl], by simp [ihcl], ?_⟩
    intro i hi
    rcases Nat.lt_or_ge i m with him | him
    · have hne : min self.count K - 1 - m ≠ min self.count K - 1 - i := by omega
      rw [getD_set_ne _ _ _ hne, getD_set_ne _ _ _ hne]
      exact ihget i him
    · have him2 : i = m := by omega
      subst him2
      rw [getD_set_self _ _ _ _ (by rw [ihbl]; omega),
          getD_set_self _ _ _ _ (by rw [ihcl]; omega)]
      exact ⟨rfl, rfl⟩

/-! ## Claim theorems -/

/-- C1: the claim says construction with `rows*cols != 0` succeeds whenever
every allocation succeeds, and fails with InvalidConstruction exactly when
the mathematical product is zero.  The code does neither: its error test
reads `self->continued_map` (the pointer, i.e. "the allocation SUCCEEDED")
instead of `self->continued_map == NULL`, so with rows=1, cols=1 and every
allocation succeeding it reports OutOfMemory (first conjunct) — indeed it can
only reach its success path when the `continued_map` allocation FAILS (second
conjunct); and the zero-area test multiplies 32-bit unsigneds, so
rows=cols=65536 (mathematical product 2^32 ≠ 0) is rejected as
InvalidConstruction (third conjunct). -/
theorem new_inverted_alloc_check :
    new 1 1 true true true = .error .OutOfMemory ∧
    new 1 1 true false true = .ok (hb_fresh 1 1) ∧
    new 65536 65536 true false true = .error .InvalidConstruction := by
  refine ⟨rfl, rfl, ?_⟩
  unfold new
  norm_num

/-- C2: for every sequence of `N` pushes into a fresh store of capacity
`C ≥ 1` (each pushed row of the store's width), `count = min N C`, `Get 0` is
the most recently pushed row, `Get (count-1)` is the oldest surviving row;
and the concrete scenario A (capacity 3, width 4, pushes ABCD, EFGH, IJKL,
MNOP) ends with `count = 3`, `Get 0 = MNOP`, `Get 1 = IJKL`, `Get 2 = EFGH`,
with ABCD evicted (no reverse line number returns its content). -/
theorem push_count_get_order (C W : Nat) (hC : 0 < C) (ls : List Line) (hne : ls ≠ [])
    (_hw : ∀ l ∈ ls, l.cells.length = W) :
    (pushAll (hb_fresh C W) ls).count = min ls.length C ∧
    line (pushAll (hb_fresh C W) ls) 0 = .ok (ls.getD (ls.length - 1) dLine) ∧
    line (pushAll (hb_fresh C W) ls) ((pushAll (hb_fresh C W) ls).count - 1)
      = .ok (ls.getD (ls.length - (pushAll (hb_fresh C W) ls).count) dLine) ∧
    scen_a.count = 3 ∧
    line scen_a 0 = .ok { cells := "MNOP".toList, continued := false } ∧
    line scen_a 1 = .ok { cells := "IJKL".toList, continued := false } ∧
    line scen_a 2 = .ok { cells := "EFGH".toList, continued := false } ∧
    ∀ lnum, (line scen_a lnum).toOption.map Line.cells ≠ some ("ABCD".toList) := by
  obtain ⟨hy, hbl, hcl, hcount, hstart, hget⟩ := pushAll_spec C W hC ls
  have hn1 : 1 ≤ ls.length := List.length_pos.mpr hne
  have hcpos : 0 < (pushAll (hb_fresh C W) ls).count := by
    rw [hcount]; exact lt_min hn1 hC
  have hcle : (pushAll (hb_fresh C W) ls).count ≤ ls.length := by
    rw [hcount]; exact Nat.min_le_left _ _
  refine ⟨hcount, ?_, ?_, by decide, by decide, by decide, by decide, ?_⟩
  · have hg := hget 0 hcpos
    rw [line_ok_index _ 0 hcpos, hg.1, hg.2, Nat.sub_zero]
  · have hlt : (pushAll (hb_fresh C W) ls).count - 1 < (pushAll (hb_fresh C W) ls).count := by
      omega
    have hg := hget _ hlt
    rw [line_ok_index _ _ hlt, hg.1, hg.2,
        show ls.length - 1 - ((pushAll (hb_fresh C W) ls).count - 1)
          = ls.length - (pushAll (hb_fresh C W) ls).count by omega]
  · intro lnum
    rcases Nat.lt_or_ge lnum 3 with h | h
    · interval_cases lnum <;> decide
    · have hc3 : scen_a.count = 3 := by decide
      rw [(line_error_iff scen_a lnum).mpr (by omega)]
      simp [Except.toOption]

/-- C2 witness: `push_count_get_order` at capacity 3, width 4 and the
scenario-A rows. -/
theorem push_count_get_order_instance :
    (pushAll (hb_fresh 3 4) scen_a_rows).count = min scen_a_rows.length 3 ∧
    line (pushAll (hb_fresh 3 4) scen_a_rows) 0
      = .ok (scen_a_rows.getD (scen_a_rows.length - 1) dLine) :=
  ⟨(push_count_get_order 3 4 (by decide) scen_a_rows (by decide) (by decide)).1,
   (push_count_get_order 3 4 (by decide) scen_a_rows (by decide) (by decide)).2.1⟩

/-- C6: `line` (Get) fails with IndexOutOfRange iff the reverse line number is
at least `count` (in particular always on an empty store), and otherwise
returns the row content and continuation flag stored at physical slot
`(start + (count-1-lnum)) % ynum`. -/
theorem line_bounds_and_slot (s : HistoryBuf) (lnum : Nat) :
    (line s lnum = .error .IndexOutOfRange ↔ s.count ≤ lnum) ∧
    (lnum < s.count →
      line s lnum
        = .ok { cells := s.buf.getD ((s.start_of_data + (s.count - 1 - lnum)) % s.ynum) [],
                continued := s.continued_map.getD
                  ((s.start_of_data + (s.count - 1 - lnum)) % s.ynum) false }) :=
  ⟨line_error_iff s lnum, line_ok_of_lt s lnum⟩

/-- C6 witness: concrete instance of `line_bounds_and_slot` on the scenario-A
store at reverse line number 1. -/
theorem line_bounds_and_slot_instance :
    (line scen_a 1 = .error .IndexOutOfRange ↔ scen_a.count ≤ 1) ∧
    line scen_a 1
      = .ok { cells := scen_a.buf.getD
                ((scen_a.start_of_data + (scen_a.count - 1 - 1)) % scen_a.ynum) [],
              continued := scen_a.continued_map.getD
                ((scen_a.start_of_data + (scen_a.count - 1 - 1)) % scen_a.ynum) false } :=
  ⟨(line_bounds_and_slot scen_a 1).1, (line_bounds_and_slot scen_a 1).2 (by decide)⟩

/-- C7: the claim says rewrap's grouping of row `y` with row `y+1` depends
only on the stored continued marker of row `y+1`, not on physical slot
positions.  It does not: on `scen_wrapped` (ring wrapped, `start_of_data=1`)
the stored marker of chronological row 1 is `true`, yet
`is_src_line_continued` returns `false` for row 0, because its guard compares
row 0's *physical* slot (`ynum - 1`) instead of consulting the chronological
order. -/
theorem src_line_continued_guard_uses_physical_slot :
    scen_wrapped.count = 2 ∧
    scen_wrapped.start_of_data = 1 ∧
    scen_wrapped.continued_map.getD (map_src_index scen_wrapped 1) false = true ∧
    is_src_line_continued scen_wrapped 0 = false := by
  decide

/-- C8: the claim says `as_ansi` emits the rows oldest-to-newest and appends
a newline exactly to rows that end their logical line.  On `scen_flags`
(rows A, B, C with C a continuation of B, no ring wrap) the code appends a
newline to every row — including B, although the stored marker of its
successor C is `true` — because the loop reads the continuation flag through
reverse indexing (`index_of(self, i+1)`) while walking physical slots. -/
theorem as_ansi_newline_divergence :
    as_ansi scen_flags
      = [("A".toList, true), ("B".toList, true), ("C".toList, true)] ∧
    scen_flags.continued_map.getD
      ((scen_flags.start_of_data + 2) % scen_flags.ynum) false = true := by
  decide

/-- C3: the claim says a logical line of length L stored as ceil(L/W1) rows
at width W1 rewraps at width W2 into ceil(L/W2) rows reproducing the L
characters.  On `scen_hw` the logical line "HELLOWORLD" (L=10) is stored at
width 5 as the two rows HELLO, WORLD (first two conjuncts: WORLD's stored
flag chains it to HELLO), but rewrapping to width 10 (capacity 4, ample)
produces TWO destination rows — HELLO and WORLD as separate lines — instead
of the single row "HELLOWORLD": the ring has wrapped, and the physical-slot
guard of `is_src_line_continued` severs the line at the wrap point. -/
theorem rewrap_wrapped_ring_splits_logical_line :
    line scen_hw 0 = .ok { cells := "WORLD".toList, continued := true } ∧
    line scen_hw 1 = .ok { cells := "HELLO".toList, continued := false } ∧
    scen_hw_dest.count = 2 ∧
    line scen_hw_dest 0
      = .ok { cells := "WORLD".toList ++ List.replicate 5 BLANK_CHAR, continued := false } ∧
    line scen_hw_dest 1
      = .ok { cells := "HELLO".toList ++ List.replicate 5 BLANK_CHAR, continued := false } := by
  decide

/-- C5: with successful allocations, `SetCapacity K` for `K ≠ 0` different
from the current capacity succeeds, the new `count` is `min Q K` (`Q` the old
count), and every surviving reverse line number reads back with the same
content and continuation flag as before (most-recent rows preserved,
relative order unchanged, oldest dropped first); `K = 0` or `K` equal to the
current capacity is a no-op returning the store unchanged, whatever the
allocation outcomes. -/
theorem resize_preserves_recent_rows (s : HistoryBuf) (K : Nat) :
    ((K = 0 ∨ K = s.ynum) → ∀ b1 b2, historybuf_resize s K b1 b2 = (.ok (), s)) ∧
    (K ≠ 0 → K ≠ s.ynum →
      (historybuf_resize s K true true).1 = .ok () ∧
      (historybuf_resize s K true true).2.count = min s.count K ∧
      ∀ i, i < min s.count K →
        line (historybuf_resize s K true true).2 i = line s i) := by
  constructor
  · intro h b1 b2
    unfold historybuf_resize
    rw [if_neg (by rcases h with h | h <;> simp [h])]
  · intro hK0 hKne
    have hre : historybuf_resize s K true true
        = (.ok (), (List.range (resize_t0 s K).count).foldl (resize_step s)
            (resize_t0 s K)) := by
      unfold historybuf_resize
      rw [if_pos ⟨by omega, hKne⟩, if_neg (by simp), if_neg (by simp)]
    have ht0c : (resize_t0 s K).count = min s.count K := rfl
    rw [hre, ht0c]
    obtain ⟨hy, hcount, hstart, hbl, hcl, hget⟩ :=
      resize_fold_spec s K (min s.count K) (le_refl _)
    refine ⟨rfl, hcount, ?_⟩
    intro i hi
    have hti : index_of ((List.range (min s.count K)).foldl (resize_step s)
        (resize_t0 s K)) i = min s.count K - 1 - i := by
      rw [index_of_eq]
      · rw [hstart, hcount, hy, Nat.zero_add, Nat.mod_eq_of_lt (by omega)]
      · rw [hcount]; omega
      · rw [hcount]; omega
    have hg := hget i hi
    rw [line_ok_index _ i (by rw [hcount]; omega), hti, hg.1, hg.2,
        line_ok_index s i (by omega)]

/-- C5 witness: `resize_preserves_recent_rows` on the scenario-A store —
shrinking to capacity 2 keeps reverse line 0, and resizing to the current
capacity 3 is a no-op. -/
theorem resize_preserves_recent_rows_instance :
    line (historybuf_resize scen_a 2 true true).2 0 = line scen_a 0 ∧
    historybuf_resize scen_a 3 false false = (.ok (), scen_a) :=
  ⟨((resize_preserves_recent_rows scen_a 2).2 (by decide) (by decide)).2.2 0 (by decide),
   (resize_preserves_recent_rows scen_a 3).1 (Or.inr (by decide)) false false⟩

/-- C9: if either allocation of the replacement storage fails,
`historybuf_resize` reports OutOfMemory and hands back the original store
completely unmodified — the code touches `self` only after both allocations
succeed. -/
theorem resize_alloc_failure_atomic (s : HistoryBuf) (K : Nat) (bufOk mapOk : Bool)
    (hK : 0 < K) (hne : K ≠ s.ynum) (hfail : bufOk = false ∨ mapOk = false) :
    historybuf_resize s K bufOk mapOk = (.error .OutOfMemory, s) := by
  unfold historybuf_resize
  rw [if_pos ⟨hK, hne⟩]
  rcases hfail with h | h
  · rw [if_pos h]
  · cases bufOk
    · rfl
    · rw [if_neg (by simp), if_pos h]

/-- C9 witness: `resize_alloc_failure_atomic` at the scenario-A store with a
failing row-storage allocation. -/
theorem resize_alloc_failure_atomic_instance :
    historybuf_resize scen_a 2 false true = (.error .OutOfMemory, scen_a) :=
  resize_alloc_failure_atomic scen_a 2 false true (by decide) (by decide) (Or.inl rfl)

/-- C4: on the fast path (destination width and capacity both equal the
source's) rewrap leaves the source unmodified, copies the count, and makes
every reverse-indexed read of the destination agree with the source (hence
identical contents, flags and chronological order). -/
theorem rewrap_fast_path_copies (self other : HistoryBuf)
    (hx : other.xnum = self.xnum) (hy : other.ynum = self.ynum) :
    (historybuf_rewrap self other).1 = self ∧
    (historybuf_rewrap self other).2.count = self.count ∧
    ∀ lnum, line (historybuf_rewrap self other).2 lnum = line self lnum := by
  unfold historybuf_rewrap
  rw [if_pos ⟨hx, hy⟩]
  refine ⟨rfl, rfl, fun lnum => ?_⟩
  simp [line, index_of, hy]

/-- C4 witness: `rewrap_fast_path_copies` from the scenario-A store into a
fresh store of the same width 4 and capacity 3. -/
theorem rewrap_fast_path_copies_instance :
    (historybuf_rewrap scen_a (hb_fresh 3 4)).1 = scen_a ∧
    (historybuf_rewrap scen_a (hb_fresh 3 4)).2.count = scen_a.count ∧
    line (historybuf_rewrap scen_a (hb_fresh 3 4)).2 0 = line scen_a 0 :=
  ⟨(rewrap_fast_path_copies scen_a (hb_fresh 3 4) (by decide) (by decide)).1,
   (rewrap_fast_path_copies scen_a (hb_fresh 3 4) (by decide) (by decide)).2.1,
   (rewrap_fast_path_copies scen_a (hb_fresh 3 4) (by decide) (by decide)).2.2 0⟩

/-- C10: on the general path (width or capacity differs) rewrap first resets
the destination's `count` and `start_of_data` to 0, so the result is the same
as rewrapping into the destination with those fields already cleared (prior
rows are discarded, never appended to); in particular an empty source leaves
the destination with `count = 0` and `start_of_data = 0` whatever it held
before. -/
theorem rewrap_general_resets_dest (self other : HistoryBuf)
    (h : ¬(other.xnum = self.xnum ∧ other.ynum = self.ynum)) :
    historybuf_rewrap self other
      = historybuf_rewrap self { other with count := 0, start_of_data := 0 } ∧
    (self.count = 0 →
      (historybuf_rewrap self other).2.count = 0 ∧
      (historybuf_rewrap self other).2.start_of_data = 0) := by
  constructor
  · unfold historybuf_rewrap
    rw [if_neg h]
  · intro h0
    unfold historybuf_rewrap
    rw [if_neg h]
    simp [h0]

/-- C10 witness: `rewrap_general_resets_dest` with an empty width-1 source
and the (count 3) scenario-A store as destination. -/
theorem rewrap_general_resets_dest_instance :
    (historybuf_rewrap (hb_fresh 1 1) scen_a).2.count = 0 ∧
    (historybuf_rewrap (hb_fresh 1 1) scen_a).2.start_of_data = 0 :=
  (rewrap_general_resets_dest (hb_fresh 1 1) scen_a (by decide)).2 rfl

end KittyHistory
